import Mathlib

/-!
Shallow embedding of the futures-backtesting accounting core
(`src/account/position.py`, `src/account/account.py`,
`src/strategy/smart_roll.py`, `src/domain/contract.py`,
`src/domain/bars.py`, `src/data/snapshot.py`).

Conventions:
* dates are integers (day numbers); Python `date` subtraction `(a - b).days`
  becomes integer subtraction;
* prices and money are `ℚ` (exact rationals standing for the Python floats);
* Python dicts keyed by `ts_code`/`trade_date` are association lists with
  dict semantics: lookup finds the first matching key, assignment replaces
  in place (or appends a fresh key), deletion removes the key;
* mutating methods become functions returning `result × new-state`.
-/

/-- Dict lookup: first value stored under key `k` (Python `d.get(k)`). -/
def lookupKey {κ α : Type} [DecidableEq κ] (k : κ) : List (κ × α) → Option α
  | [] => none
  | (k', v) :: rest => if k' = k then some v else lookupKey k rest

/-- Dict assignment `d[k] = v`: replace in place, else append. -/
def setKey {κ α : Type} [DecidableEq κ] (k : κ) (v : α) : List (κ × α) → List (κ × α)
  | [] => [(k, v)]
  | (k', v') :: rest => if k' = k then (k, v) :: rest else (k', v') :: setKey k v rest

/-- Dict deletion `del d[k]`: remove the entry stored under `k`. -/
def eraseKey {κ α : Type} [DecidableEq κ] (k : κ) : List (κ × α) → List (κ × α)
  | [] => []
  | (k', v') :: rest => if k' = k then rest else (k', v') :: eraseKey k rest

/-- The price fields of a futures daily bar (`src/domain/bars.py`);
`open` is a Lean keyword, hence `open_`. -/
inductive PriceField : Type
  | open_ | high | low | close | settle | pre_settle
deriving DecidableEq

/-- Source `FuturesDailyBar` from `src/domain/bars.py`. -/
structure FuturesDailyBar : Type where
  trade_date : Int
  open_ : ℚ
  high : ℚ
  low : ℚ
  close : ℚ
  settle : ℚ
  pre_settle : ℚ
  volume : ℚ
  amount : ℚ
  open_interest : ℚ
deriving DecidableEq

/-- Source `getattr(bar, field)` for the price fields. -/
def FuturesDailyBar.getField (b : FuturesDailyBar) : PriceField → ℚ
  | .open_ => b.open_
  | .high => b.high
  | .low => b.low
  | .close => b.close
  | .settle => b.settle
  | .pre_settle => b.pre_settle

/-- Source `FuturesContract` from `src/domain/contract.py` (identity `ts_code`,
immutable metadata, owned date→bar mapping). -/
structure FuturesContract : Type where
  ts_code : String
  fut_code : String
  multiplier : ℚ
  list_date : Int
  delist_date : Int
  daily_bars : List (Int × FuturesDailyBar)
deriving DecidableEq

/-- Source `FuturesContract.get_bar`. -/
def FuturesContract.get_bar (c : FuturesContract) (trade_date : Int) : Option FuturesDailyBar :=
  lookupKey trade_date c.daily_bars

/-- Source `FuturesContract.get_price(trade_date, field)`. -/
def FuturesContract.get_price (c : FuturesContract) (trade_date : Int) (field : PriceField) :
    Option ℚ :=
  (c.get_bar trade_date).map (fun b => b.getField field)

/-- Source `FuturesContract.days_to_expiry`: `(delist_date - trade_date).days`. -/
def FuturesContract.days_to_expiry (c : FuturesContract) (trade_date : Int) : Int :=
  c.delist_date - trade_date

/-- Source `FuturesContract.is_expired`. -/
def FuturesContract.is_expired (c : FuturesContract) (trade_date : Int) : Bool :=
  c.delist_date < trade_date

/-- Source `Position` from `src/account/position.py`: signed lot count, average
entry price, previous settlement price. -/
structure Position : Type where
  contract : FuturesContract
  volume : Int
  entry_price : ℚ
  last_settle : ℚ
deriving DecidableEq

/-- Source `Position.ts_code` property. -/
def Position.ts_code (p : Position) : String := p.contract.ts_code

/-- Source `Position.multiplier` property. -/
def Position.multiplier (p : Position) : ℚ := p.contract.multiplier

/-- Source `Position.mark_to_market(trade_date)`: daily settlement PnL; missing
settle price is a no-op day returning `0.0`. Returns `(pnl, new state)`. -/
def Position.mark_to_market (p : Position) (trade_date : Int) : ℚ × Position :=
  match p.contract.get_price trade_date PriceField.settle with
  | none => (0, p)
  | some today_settle =>
      ((today_settle - p.last_settle) * (p.volume : ℚ) * p.multiplier,
       { p with last_settle := today_settle })

/-- Source `Position.notional_value(trade_date)`. -/
def Position.notional_value (p : Position) (trade_date : Int) : ℚ :=
  let price := (p.contract.get_price trade_date PriceField.settle).getD p.last_settle
  |price * (p.volume : ℚ) * p.multiplier|

/-- Source `Position.update_volume(delta, price)`: realized PnL on the closed
portion, then volume / entry-price / last_settle update, transliterated
from `src/account/position.py` lines 84–115. Returns `(realized_pnl, new state)`. -/
def Position.update_volume (p : Position) (delta : Int) (price : ℚ) : ℚ × Position :=
  if delta = 0 then (0, p)
  else
    let realized_pnl : ℚ :=
      if (0 < p.volume ∧ delta < 0) ∨ (p.volume < 0 ∧ 0 < delta) then
        let close_volume : Int := min |delta| |p.volume|
        if 0 < p.volume then
          (price - p.entry_price) * (close_volume : ℚ) * p.multiplier
        else
          (p.entry_price - price) * (close_volume : ℚ) * p.multiplier
      else 0
    let new_volume : Int := p.volume + delta
    let new_entry : ℚ :=
      if new_volume ≠ 0 ∧ |p.volume| < |new_volume| then
        let add_volume : Int := |delta|
        let old_value := p.entry_price * ((|p.volume| : Int) : ℚ)
        let new_value := price * ((add_volume : Int) : ℚ)
        (old_value + new_value) / ((|new_volume| : Int) : ℚ)
      else p.entry_price
    (realized_pnl,
     { p with volume := new_volume, entry_price := new_entry, last_settle := price })

/-- Source `IndexDailyBar` from `src/domain/bars.py`. -/
structure IndexDailyBar : Type where
  trade_date : Int
  open_ : ℚ
  high : ℚ
  low : ℚ
  close : ℚ
deriving DecidableEq

/-- Source `MarketSnapshot` from `src/data/snapshot.py`: a per-day cross-sectional
view (index bar plus `ts_code → bar` quotes). -/
structure MarketSnapshot : Type where
  trade_date : Int
  index_bar : IndexDailyBar
  futures_quotes : List (String × FuturesDailyBar)
deriving DecidableEq

/-- Source `MarketSnapshot.get_contract_bar`. -/
def MarketSnapshot.get_contract_bar (s : MarketSnapshot) (ts_code : String) :
    Option FuturesDailyBar :=
  lookupKey ts_code s.futures_quotes

/-- Source `MarketSnapshot.get_futures_price(ts_code, field)`. -/
def MarketSnapshot.get_futures_price (s : MarketSnapshot) (ts_code : String)
    (field : PriceField) : Option ℚ :=
  (s.get_contract_bar ts_code).map (fun b => b.getField field)

/-- Source `TradeRecord` from `src/account/account.py`. -/
structure TradeRecord : Type where
  trade_date : Int
  ts_code : String
  direction : String
  volume : Int
  price : ℚ
  amount : ℚ
  commission : ℚ
  reason : String
  realized_pnl : ℚ
deriving DecidableEq

/-- Source `Account` from `src/account/account.py`: configuration plus the mutable
state (cash, realized/unrealized PnL, holdings, NAV history, trade log). -/
structure Account : Type where
  initial_capital : ℚ
  margin_rate : ℚ
  commission_rate : ℚ
  execution_price_field : PriceField
  cash : ℚ
  realized_pnl : ℚ
  unrealized_pnl : ℚ
  positions : List (String × Position)
  nav_history : List (Int × ℚ)
  trade_log : List TradeRecord
deriving DecidableEq

/-- Source `Account.equity` property: `cash + unrealized_pnl`. -/
def Account.equity (a : Account) : ℚ := a.cash + a.unrealized_pnl

/-- Source `Account.nav` property: `equity / initial_capital`. -/
def Account.nav (a : Account) : ℚ := a.equity / a.initial_capital

/-- Source `Account.get_position_volume` (0 when no position). -/
def Account.get_position_volume (a : Account) (ts_code : String) : Int :=
  match lookupKey ts_code a.positions with
  | some pos => pos.volume
  | none => 0

/-- Source `Account.mark_to_market(snapshot)`: marks every held position for
`snapshot.trade_date`, settles the total PnL into cash, then
`_update_unrealized_pnl` resets `unrealized_pnl` to `0.0`. Each loop
iteration touches only its own position, so the loop is the map/sum below.
Returns `(daily_pnl, new state)`. -/
def Account.mark_to_market (a : Account) (snapshot : MarketSnapshot) : ℚ × Account :=
  let trade_date := snapshot.trade_date
  let daily_pnl := (a.positions.map (fun kp => (kp.2.mark_to_market trade_date).1)).sum
  let positions' := a.positions.map (fun kp => (kp.1, (kp.2.mark_to_market trade_date).2))
  (daily_pnl,
   { a with cash := a.cash + daily_pnl, unrealized_pnl := 0, positions := positions' })

/-- Source `Account.required_margin(snapshot)`. -/
def Account.required_margin (a : Account) (snapshot : MarketSnapshot) : ℚ :=
  (a.positions.map (fun kp => kp.2.notional_value snapshot.trade_date * a.margin_rate)).sum

/-- Source `Account._execute_trade(contract, volume, price, trade_date, reason)`:
deduct commission, update or create the position (removing it when its
volume hits zero), accumulate realized PnL, append a `TradeRecord`.
Returns `(commission, new state)`. -/
def Account.execute_trade (a : Account) (contract : FuturesContract) (volume : Int)
    (price : ℚ) (trade_date : Int) (reason : String) : ℚ × Account :=
  let ts_code := contract.ts_code
  let amount := |(volume : ℚ) * price * contract.multiplier|
  let commission := amount * a.commission_rate
  let res : ℚ × List (String × Position) :=
    match lookupKey ts_code a.positions with
    | some position =>
        let rp := (position.update_volume volume price).1
        let pos' := (position.update_volume volume price).2
        let positions1 := setKey ts_code pos' a.positions
        (rp, if pos'.volume = 0 then eraseKey ts_code positions1 else positions1)
    | none =>
        (0, setKey ts_code (Position.mk contract volume price price) a.positions)
  let direction := if 0 < volume then "BUY" else "SELL"
  let trade : TradeRecord :=
    ⟨trade_date, ts_code, direction, |volume|, price, amount, commission, reason, res.1⟩
  (commission,
   { a with
      cash := a.cash - commission,
      realized_pnl := a.realized_pnl + res.1,
      positions := res.2,
      trade_log := a.trade_log ++ [trade] })

/-- Source `Account._close_position(ts_code, snapshot, reason)`: close the whole
position at the execution price, falling back to its `last_settle`. -/
def Account.close_position (a : Account) (ts_code : String) (snapshot : MarketSnapshot)
    (reason : String) : ℚ × Account :=
  match lookupKey ts_code a.positions with
  | none => (0, a)
  | some position =>
      let price := (snapshot.get_futures_price ts_code a.execution_price_field).getD
        position.last_settle
      a.execute_trade position.contract (-position.volume) price snapshot.trade_date reason

/-- Phase-1 step of `rebalance_to_target`: close a held contract that is
absent from the target or mapped to 0. -/
def Account.rebalanceCloseStep (snapshot : MarketSnapshot)
    (target_positions : List (String × Int)) (reason : String)
    (acc : ℚ × Account) (ts_code : String) : ℚ × Account :=
  match lookupKey ts_code target_positions with
  | none =>
      let r := acc.2.close_position ts_code snapshot reason
      (acc.1 + r.1, r.2)
  | some tv =>
      if tv = 0 then
        let r := acc.2.close_position ts_code snapshot reason
        (acc.1 + r.1, r.2)
      else acc

/-- Phase-2 step of `rebalance_to_target`: trade the delta to a nonzero
target volume, skipping the leg when the contract or price is missing. -/
def Account.rebalanceOpenStep (snapshot : MarketSnapshot)
    (contracts : List (String × FuturesContract)) (reason : String)
    (acc : ℚ × Account) (kv : String × Int) : ℚ × Account :=
  if kv.2 = 0 then acc
  else
    if kv.2 - acc.2.get_position_volume kv.1 ≠ 0 then
      match lookupKey kv.1 contracts with
      | none => acc
      | some contract =>
          match snapshot.get_futures_price kv.1 acc.2.execution_price_field with
          | none => acc
          | some price =>
              let r := acc.2.execute_trade contract (kv.2 - acc.2.get_position_volume kv.1)
                price snapshot.trade_date reason
              (acc.1 + r.1, r.2)
    else acc

/-- Source `Account.rebalance_to_target(target_positions, snapshot, contracts, reason)`:
phase 1 closes held contracts not in the target (iterating over a snapshot
of the held keys, as `list(self._positions.keys())` does), phase 2 opens or
adjusts to each nonzero target. Returns `(total_commission, new state)`. -/
def Account.rebalance_to_target (a : Account) (target_positions : List (String × Int))
    (snapshot : MarketSnapshot) (contracts : List (String × FuturesContract))
    (reason : String) : ℚ × Account :=
  let held_keys := a.positions.map Prod.fst
  let phase1 := held_keys.foldl (Account.rebalanceCloseStep snapshot target_positions reason)
    (0, a)
  target_positions.foldl (Account.rebalanceOpenStep snapshot contracts reason) phase1

/-- Modelled from the spec: `src/data/signal_snapshot.py` is not in `src/`.
Per spec §3/§6 a `SignalSnapshot` is a per-day read-only view exposing
`trade_date` and lag-1 liquidity lookups `get_prev_volume(ts_code)` /
`get_prev_oi(ts_code)` (absent contract ⇒ `None`). -/
structure SignalSnapshot : Type where
  trade_date : Int
  prev_volume : List (String × ℚ)
  prev_oi : List (String × ℚ)
deriving DecidableEq

/-- Modelled from the spec: `SignalSnapshot.get_prev_volume(ts_code)`. -/
def SignalSnapshot.get_prev_volume (s : SignalSnapshot) (ts_code : String) : Option ℚ :=
  lookupKey ts_code s.prev_volume

/-- Modelled from the spec: `SignalSnapshot.get_prev_oi(ts_code)`. -/
def SignalSnapshot.get_prev_oi (s : SignalSnapshot) (ts_code : String) : Option ℚ :=
  lookupKey ts_code s.prev_oi

/-- Modelled from the spec: `src/domain/chain.py` is not in `src/`. Per spec
§3/§4.3 a `ContractChain` owns all contracts of one product, and its derived
views are ordered by ascending `delist_date` (nearest expiry first); the
`contracts` list is kept in that order. -/
structure ContractChain : Type where
  fut_code : String
  contracts : List FuturesContract
deriving DecidableEq

/-- Modelled from the spec: `ContractChain.get_contracts_expiring_after(date,
min_days)` "returns contracts whose days-to-expiry from `date` exceeds
`min_days`, ordered by ascending delist_date" (§4.3); filtering the
delist-ordered `contracts` list preserves that order. -/
def ContractChain.get_contracts_expiring_after (chain : ContractChain) (trade_date : Int)
    (min_days : Int) : List FuturesContract :=
  chain.contracts.filter (fun c => min_days < c.days_to_expiry trade_date)

/-- The `roll_criteria` literal of `src/strategy/smart_roll.py`. -/
inductive RollCriteria : Type
  | volume | oi
deriving DecidableEq

/-- Source `SmartRollStrategy` configuration (`src/strategy/smart_roll.py`; the
plain attributes `roll_days_before_expiry`, `min_roll_days` etc. are set by
the missing `BaselineRollStrategy.__init__` and read by `_should_roll`). -/
structure SmartRollStrategy : Type where
  contract_chain : ContractChain
  roll_days_before_expiry : Int
  target_leverage : ℚ
  min_roll_days : Int
  signal_price_field : PriceField
  roll_criteria : RollCriteria
deriving DecidableEq

/-- The lag-1 liquidity figure `_should_roll` compares: previous-day volume
or open interest per `roll_criteria`, with the Python default of 0.0 when absent. -/
def SmartRollStrategy.liq_val (s : SmartRollStrategy) (snapshot : SignalSnapshot)
    (ts_code : String) : ℚ :=
  match s.roll_criteria with
  | .volume => (snapshot.get_prev_volume ts_code).getD 0
  | .oi => (snapshot.get_prev_oi ts_code).getD 0

/-- Source `SmartRollStrategy._should_roll(contract, snapshot)` transliterated from
`src/strategy/smart_roll.py` lines 45–87: hard expiry trigger first, then
the liquidity-crossover comparison against the first candidate. -/
def SmartRollStrategy.should_roll (s : SmartRollStrategy) (contract : FuturesContract)
    (snapshot : SignalSnapshot) : Bool :=
  let trade_date := snapshot.trade_date
  let days_to_expiry := contract.days_to_expiry trade_date
  if days_to_expiry ≤ s.roll_days_before_expiry then true
  else
    let candidates := (s.contract_chain.get_contracts_expiring_after trade_date
      s.min_roll_days).filter (fun c => c.ts_code ≠ contract.ts_code)
    match candidates with
    | [] => false
    | candidate :: _ =>
        let current_val := s.liq_val snapshot contract.ts_code
        let candidate_val := s.liq_val snapshot candidate.ts_code
        decide (current_val < candidate_val ∧ 0 < candidate_val)

/-- Harness for C3: apply `Position.mark_to_market` on each date of a span
in order, summing the returned daily PnLs. -/
def Position.mtmFold (p : Position) : List Int → ℚ × Position
  | [] => (0, p)
  | d :: ds =>
      let r1 := p.mark_to_market d
      let r2 := r1.2.mtmFold ds
      (r1.1 + r2.1, r2.2)

/-- Invariant of spec §3: no `Position` with volume exactly zero is kept in
the holdings map. -/
def Account.no_zero_positions (a : Account) : Prop :=
  ∀ kp ∈ a.positions, kp.2.volume ≠ 0

/- Concrete fixtures used by the witness theorems. -/

/-- Contract code of the near contract in the fixtures. -/
def tsA : String := "IC2401.CFX"

/-- Contract code of the next contract in the fixtures. -/
def tsB : String := "IC2402.CFX"

/-- Trade reason tag used in the fixtures. -/
def rsnA : String := "REBALANCE"

/-- Flat fixture bar whose every price field is `s`. -/
def barAt (d : Int) (s : ℚ) : FuturesDailyBar := ⟨d, s, s, s, s, s, s, 100, 100, 100⟩

/-- Fixture contract with settlement prices 100 on day 1 and 110 on day 2. -/
def contractA : FuturesContract :=
  ⟨tsA, tsA, 200, 0, 30, [(1, barAt 1 100), (2, barAt 2 110)]⟩

/-- Fixture contract with no daily bars. -/
def contractNoBars : FuturesContract := ⟨tsB, tsB, 200, 0, 30, []⟩

/-- Fixture one-lot long position at entry 10. -/
def posA : Position := ⟨contractA, 1, 10, 10⟩

/-- Fixture ten-lot long position at entry 100. -/
def posB : Position := ⟨contractA, 10, 100, 100⟩

/-- Fixture position on the bar-less contract. -/
def posC : Position := ⟨contractNoBars, 5, 100, 100⟩

/-- Fixture index bar. -/
def idxBarA : IndexDailyBar := ⟨1, 100, 100, 100, 100⟩

/-- Fixture snapshot for day 1 quoting `contractA`. -/
def snapA : MarketSnapshot := ⟨1, idxBarA, [(tsA, barAt 1 100)]⟩

/-- Fixture account holding ten lots of `contractA`. -/
def acctA : Account :=
  ⟨1000000, 12 / 100, 23 / 100000, PriceField.open_, 1000000, 0, 0, [(tsA, posB)], [], []⟩

/-- Fixture empty account. -/
def acctB : Account :=
  ⟨1000000, 12 / 100, 23 / 100000, PriceField.open_, 1000000, 0, 0, [], [], []⟩

/-- Fixture held contract delisting on day 10. -/
def contractHeld : FuturesContract := ⟨tsA, tsA, 200, 0, 10, []⟩

/-- Fixture next contract delisting on day 40. -/
def contractNext : FuturesContract := ⟨tsB, tsA, 200, 0, 40, []⟩

/-- Fixture chain holding the two strategy contracts in delist order. -/
def chainA : ContractChain := ⟨tsA, [contractHeld, contractNext]⟩

/-- Fixture signal snapshot for day 1: prior-day volumes 50 and 80. -/
def sigA : SignalSnapshot := ⟨1, [(tsA, 50), (tsB, 80)], [(tsA, 10), (tsB, 20)]⟩

/-- Fixture signal snapshot for day 9 with no liquidity data at all. -/
def sigB : SignalSnapshot := ⟨9, [], []⟩

/-- Fixture smart-roll strategy over `chainA`. -/
def stratA : SmartRollStrategy := ⟨chainA, 1, 1, 5, PriceField.open_, RollCriteria.volume⟩

/-! Association-list helper lemmas. -/

theorem lookupKey_mem {κ α : Type} [DecidableEq κ] {k : κ} {v : α} {l : List (κ × α)}
    (h : lookupKey k l = some v) : (k, v) ∈ l := by
  induction l with
  | nil => simp [lookupKey] at h
  | cons kv rest ih =>
      obtain ⟨k', v'⟩ := kv
      rw [lookupKey] at h
      split at h
      · rename_i heq
        cases h
        simp [heq]
      · exact List.mem_cons_of_mem _ (ih h)

theorem mem_setKey {κ α : Type} [DecidableEq κ] {kp : κ × α} {k : κ} {v : α}
    {l : List (κ × α)} (h : kp ∈ setKey k v l) : kp ∈ l ∨ kp = (k, v) := by
  induction l with
  | nil => simp [setKey] at h; right; exact h
  | cons kv rest ih =>
      obtain ⟨k', v'⟩ := kv
      rw [setKey] at h
      split at h
      · rcases List.mem_cons.mp h with h1 | h1
        · right; exact h1
        · left; exact List.mem_cons_of_mem _ h1
      · rcases List.mem_cons.mp h with h1 | h1
        · left; simp [h1]
        · rcases ih h1 with h2 | h2
          · left; exact List.mem_cons_of_mem _ h2
          · right; exact h2

theorem mem_eraseKey_setKey {κ α : Type} [DecidableEq κ] {kp : κ × α} {k : κ} {v : α}
    {l : List (κ × α)} (h : kp ∈ eraseKey k (setKey k v l)) : kp ∈ l := by
  induction l with
  | nil => simp [setKey, eraseKey] at h
  | cons kv rest ih =>
      obtain ⟨k', v'⟩ := kv
      rw [setKey] at h
      split at h
      · rename_i heq
        rw [eraseKey, if_pos rfl] at h
        exact List.mem_cons_of_mem _ h
      · rename_i hne
        rw [eraseKey, if_neg hne] at h
        rcases List.mem_cons.mp h with h1 | h1
        · simp [h1]
        · exact List.mem_cons_of_mem _ (ih h1)

theorem lookupKey_setKey_self {κ α : Type} [DecidableEq κ] (k : κ) (v : α)
    (l : List (κ × α)) : lookupKey k (setKey k v l) = some v := by
  induction l with
  | nil => simp [setKey, lookupKey]
  | cons kv rest ih =>
      obtain ⟨k', v'⟩ := kv
      rw [setKey]
      split
      · rw [lookupKey, if_pos rfl]
      · rename_i hne
        rw [lookupKey, if_neg hne]
        exact ih

/-! Generic fold lemmas. -/

theorem foldl_eq_init {α β : Type} {f : β → α → β} {l : List α} {init : β}
    (h : ∀ x ∈ l, f init x = init) : l.foldl f init = init := by
  induction l with
  | nil => rfl
  | cons x xs ih =>
      rw [List.foldl_cons, h x (List.mem_cons_self x xs)]
      exact ih (fun y hy => h y (List.mem_cons_of_mem x hy))

theorem foldl_preserves {α β : Type} {P : β → Prop} {f : β → α → β} {l : List α}
    (hf : ∀ acc x, x ∈ l → P acc → P (f acc x)) {init : β} (h : P init) :
    P (l.foldl f init) := by
  induction l generalizing init with
  | nil => exact h
  | cons x xs ih =>
      rw [List.foldl_cons]
      exact ih (fun acc y hy hacc => hf acc y (List.mem_cons_of_mem x hy) hacc)
        (hf init x (List.mem_cons_self x xs) h)

/-! Facts about a single `Position.mark_to_market` step. -/

theorem Position.mtm_fields (p : Position) (d : Int) :
    (p.mark_to_market d).2.contract = p.contract ∧
    (p.mark_to_market d).2.volume = p.volume ∧
    (p.mark_to_market d).2.entry_price = p.entry_price := by
  unfold Position.mark_to_market
  cases p.contract.get_price d PriceField.settle <;> simp

theorem Position.mtm_pnl_eq (p : Position) (d : Int) :
    (p.mark_to_market d).1 =
      ((p.mark_to_market d).2.last_settle - p.last_settle) * (p.volume : ℚ) * p.multiplier := by
  unfold Position.mark_to_market
  cases p.contract.get_price d PriceField.settle <;> simp

theorem Position.mtm_last_settle (p : Position) (d : Int) (s : ℚ)
    (h : p.contract.get_price d PriceField.settle = some s) :
    (p.mark_to_market d).2.last_settle = s := by
  unfold Position.mark_to_market
  rw [h]

theorem Position.mtmFold_cons (p : Position) (d : Int) (ds : List Int) :
    p.mtmFold (d :: ds) =
      ((p.mark_to_market d).1 + ((p.mark_to_market d).2.mtmFold ds).1,
       ((p.mark_to_market d).2.mtmFold ds).2) := rfl

theorem Position.mtmFold_fields (p : Position) (ds : List Int) :
    (p.mtmFold ds).2.contract = p.contract ∧
    (p.mtmFold ds).2.volume = p.volume ∧
    (p.mtmFold ds).2.entry_price = p.entry_price := by
  induction ds generalizing p with
  | nil => exact ⟨rfl, rfl, rfl⟩
  | cons d ds ih =>
      rw [Position.mtmFold_cons]
      obtain ⟨h1, h2, h3⟩ := ih (p.mark_to_market d).2
      obtain ⟨g1, g2, g3⟩ := Position.mtm_fields p d
      exact ⟨h1.trans g1, h2.trans g2, h3.trans g3⟩

theorem Position.mtmFold_total (p : Position) (ds : List Int) :
    (p.mtmFold ds).1 =
      ((p.mtmFold ds).2.last_settle - p.last_settle) * (p.volume : ℚ) * p.multiplier := by
  induction ds generalizing p with
  | nil => simp [Position.mtmFold]
  | cons d ds ih =>
      rw [Position.mtmFold_cons]
      have h1 := Position.mtm_pnl_eq p d
      have h2 := ih (p.mark_to_market d).2
      obtain ⟨gc, gv, _⟩ := Position.mtm_fields p d
      have gm : (p.mark_to_market d).2.multiplier = p.multiplier := by
        unfold Position.multiplier
        rw [gc]
      rw [h1, h2, gv, gm]
      ring

theorem Position.mtmFold_last (p : Position) (ds : List Int) (hne : ds ≠ [])
    (hall : ∀ d ∈ ds, (p.contract.get_price d PriceField.settle).isSome) :
    ∃ dEnd sEnd, ds.getLast? = some dEnd ∧
      p.contract.get_price dEnd PriceField.settle = some sEnd ∧
      (p.mtmFold ds).2.last_settle = sEnd := by
  induction ds generalizing p with
  | nil => exact absurd rfl hne
  | cons d ds ih =>
      cases ds with
      | nil =>
          have hd := hall d (List.mem_cons_self _ _)
          obtain ⟨s, hs⟩ := Option.isSome_iff_exists.mp hd
          refine ⟨d, s, rfl, hs, ?_⟩
          rw [Position.mtmFold_cons]
          exact Position.mtm_last_settle p d s hs
      | cons d2 ds2 =>
          have hcontract := (Position.mtm_fields p d).1
          have hall2 : ∀ x ∈ d2 :: ds2,
              ((p.mark_to_market d).2.contract.get_price x PriceField.settle).isSome := by
            intro x hx
            rw [hcontract]
            exact hall x (List.mem_cons_of_mem _ hx)
          obtain ⟨dE, sE, e1, e2, e3⟩ := ih (p.mark_to_market d).2 (by simp) hall2
          rw [hcontract] at e2
          refine ⟨dE, sE, ?_, e2, ?_⟩
          · rw [List.getLast?_cons_cons]
            exact e1
          · rw [Position.mtmFold_cons]
            exact e3

theorem map_fst_mtm (l : List (String × Position)) (d : Int) :
    (l.map (fun kp => (kp.1, (kp.2.mark_to_market d).2))).map Prod.fst = l.map Prod.fst := by
  induction l with
  | nil => rfl
  | cons kp rest ih => simp only [List.map_cons, ih]

theorem map_core_fields_mtm (l : List (String × Position)) (d : Int) :
    (l.map (fun kp => (kp.1, (kp.2.mark_to_market d).2))).map
        (fun kp => (kp.2.contract, kp.2.volume, kp.2.entry_price)) =
      l.map (fun kp => (kp.2.contract, kp.2.volume, kp.2.entry_price)) := by
  induction l with
  | nil => rfl
  | cons kp rest ih =>
      simp only [List.map_cons, ih]
      obtain ⟨h1, h2, h3⟩ := Position.mtm_fields kp.2 d
      rw [h1, h2, h3]

/-- C1: whenever `update_volume(delta, price)` increases the magnitude of the
position (`|volume + delta| > |volume|`, covering same-direction adds and
through-zero flips into a larger opposite position), the entry price becomes
`(entry_price * |volume| + price * |delta|) / |volume + delta|` — the
volume-weighted re-average that bases the added value on the magnitude of
the full traded quantity `|delta|` only (never re-averaging the closed
portion separately) — and the final volume is `volume + delta`. -/
theorem update_volume_magnitude_increase (p : Position) (delta : Int) (price : ℚ)
    (h : |p.volume| < |p.volume + delta|) :
    (p.update_volume delta price).2.volume = p.volume + delta ∧
    (p.update_volume delta price).2.entry_price =
      (p.entry_price * ((|p.volume| : Int) : ℚ) + price * ((|delta| : Int) : ℚ)) /
        ((|p.volume + delta| : Int) : ℚ) := by
  have hd : delta ≠ 0 := by
    rintro rfl
    simp at h
  have hnz : p.volume + delta ≠ 0 := by
    intro h0
    rw [h0, abs_zero] at h
    exact absurd h (not_lt.mpr (abs_nonneg _))
  constructor
  · simp [Position.update_volume, hd]
  · simp [Position.update_volume, hd, hnz, h]

/-- C1 witness: adding one lot at price 20 to a one-lot long entered at 10. -/
theorem update_volume_magnitude_increase_witness :
    (posA.update_volume 1 20).2.volume = posA.volume + 1 ∧
    (posA.update_volume 1 20).2.entry_price =
      (posA.entry_price * ((|posA.volume| : Int) : ℚ) + 20 * ((|(1 : Int)| : Int) : ℚ)) /
        ((|posA.volume + 1| : Int) : ℚ) :=
  update_volume_magnitude_increase posA 1 20 (by decide)

/-- C2: `Account.mark_to_market` returns the sum over held positions of
`Position.mark_to_market(snapshot.trade_date)`, adds exactly that total to
cash, resets `unrealized_pnl` to 0, and afterwards `equity = cash`. -/
theorem account_mtm_settles_to_cash (a : Account) (snapshot : MarketSnapshot) :
    (a.mark_to_market snapshot).1 =
      (a.positions.map (fun kp => (kp.2.mark_to_market snapshot.trade_date).1)).sum ∧
    (a.mark_to_market snapshot).2.cash = a.cash + (a.mark_to_market snapshot).1 ∧
    (a.mark_to_market snapshot).2.unrealized_pnl = 0 ∧
    (a.mark_to_market snapshot).2.equity = (a.mark_to_market snapshot).2.cash := by
  refine ⟨rfl, rfl, rfl, ?_⟩
  simp [Account.equity, Account.mark_to_market]

/-- C3: marking a position to market over a span of dates that all carry a
settlement price, with the volume unchanged throughout (mark-to-market never
touches it), accumulates exactly
`(settle_end - settle_start) * volume * multiplier`, where `settle_start` is
the settlement baseline (`last_settle`) entering the span and `settle_end`
the settlement price of the final date. -/
theorem mtm_span_additive (p : Position) (ds : List Int) (hne : ds ≠ [])
    (hall : ∀ d ∈ ds, (p.contract.get_price d PriceField.settle).isSome) :
    ∃ dEnd sEnd, ds.getLast? = some dEnd ∧
      p.contract.get_price dEnd PriceField.settle = some sEnd ∧
      (p.mtmFold ds).2.volume = p.volume ∧
      (p.mtmFold ds).1 = (sEnd - p.last_settle) * (p.volume : ℚ) * p.multiplier := by
  obtain ⟨dE, sE, e1, e2, e3⟩ := Position.mtmFold_last p ds hne hall
  refine ⟨dE, sE, e1, e2, (Position.mtmFold_fields p ds).2.1, ?_⟩
  rw [Position.mtmFold_total, e3]

/-- C3 witness: ten lots marked across days 1 and 2 with settles 100 and 110. -/
theorem mtm_span_additive_witness :
    ∃ dEnd sEnd, ([1, 2] : List Int).getLast? = some dEnd ∧
      posB.contract.get_price dEnd PriceField.settle = some sEnd ∧
      (posB.mtmFold [1, 2]).2.volume = posB.volume ∧
      (posB.mtmFold [1, 2]).1 = (sEnd - posB.last_settle) * (posB.volume : ℚ) * posB.multiplier :=
  mtm_span_additive posB [1, 2] (by decide) (by decide)

/-- C7: a missing settlement price makes `Position.mark_to_market` return 0
and leave the whole position state unchanged. -/
theorem position_mtm_missing_price_noop (p : Position) (d : Int)
    (h : p.contract.get_price d PriceField.settle = none) :
    p.mark_to_market d = (0, p) := by
  unfold Position.mark_to_market
  rw [h]

/-- C7 witness: marking a position on a contract with no bars is a no-op. -/
theorem position_mtm_missing_price_noop_witness : posC.mark_to_market 1 = (0, posC) :=
  position_mtm_missing_price_noop posC 1 rfl

/-- C10: `Account.mark_to_market` only changes cash, `unrealized_pnl` and the
`last_settle` of each held position: realized PnL, trade log, NAV history,
the held key set (even for expired contracts), and the contract, volume and
entry price of every position are untouched. -/
theorem account_mtm_frame (a : Account) (snapshot : MarketSnapshot) :
    (a.mark_to_market snapshot).2.realized_pnl = a.realized_pnl ∧
    (a.mark_to_market snapshot).2.trade_log = a.trade_log ∧
    (a.mark_to_market snapshot).2.nav_history = a.nav_history ∧
    (a.mark_to_market snapshot).2.initial_capital = a.initial_capital ∧
    (a.mark_to_market snapshot).2.positions.map Prod.fst = a.positions.map Prod.fst ∧
    (a.mark_to_market snapshot).2.positions.map
        (fun kp => (kp.2.contract, kp.2.volume, kp.2.entry_price)) =
      a.positions.map (fun kp => (kp.2.contract, kp.2.volume, kp.2.entry_price)) := by
  refine ⟨rfl, rfl, rfl, rfl, ?_, ?_⟩
  · exact map_fst_mtm a.positions snapshot.trade_date
  · exact map_core_fields_mtm a.positions snapshot.trade_date

theorem rebalance_matching_noop (a : Account) (target : List (String × Int))
    (snapshot : MarketSnapshot) (contracts : List (String × FuturesContract)) (reason : String)
    (h1 : ∀ kv ∈ target, kv.2 ≠ 0)
    (h2 : ∀ kv ∈ target, a.get_position_volume kv.1 = kv.2)
    (h3 : ∀ kp ∈ a.positions, (lookupKey kp.1 target).isSome) :
    a.rebalance_to_target target snapshot contracts reason = (0, a) := by
  unfold Account.rebalance_to_target
  have hp1 : (a.positions.map Prod.fst).foldl
      (Account.rebalanceCloseStep snapshot target reason) (0, a) = (0, a) := by
    apply foldl_eq_init
    intro k hk
    obtain ⟨kp, hkp, rfl⟩ := List.mem_map.mp hk
    obtain ⟨tv, htv⟩ := Option.isSome_iff_exists.mp (h3 kp hkp)
    have hne := h1 (kp.1, tv) (lookupKey_mem htv)
    simp only [Account.rebalanceCloseStep, htv]
    rw [if_neg hne]
  show target.foldl (Account.rebalanceOpenStep snapshot contracts reason)
      ((a.positions.map Prod.fst).foldl (Account.rebalanceCloseStep snapshot target reason)
        (0, a)) = (0, a)
  rw [hp1]
  apply foldl_eq_init
  intro kv hkv
  have hδ : kv.2 - a.get_position_volume kv.1 = 0 := by
    rw [h2 kv hkv]
    exact sub_self kv.2
  simp only [Account.rebalanceOpenStep]
  rw [if_neg (h1 kv hkv)]
  rw [if_neg (not_not_intro hδ)]

/-- C4: when the current holdings already match the (all-nonzero) target
positions and the snapshot quotes an execution price for every target leg,
`rebalance_to_target` is idempotent: the second call with the same target
trades nothing, returns zero commission, and leaves the account — its
trade log included — unchanged. -/
theorem rebalance_idempotent (a : Account) (target : List (String × Int))
    (snapshot : MarketSnapshot) (contracts : List (String × FuturesContract)) (reason : String)
    (h1 : ∀ kv ∈ target, kv.2 ≠ 0)
    (h2 : ∀ kv ∈ target, a.get_position_volume kv.1 = kv.2)
    (h3 : ∀ kp ∈ a.positions, (lookupKey kp.1 target).isSome)
    (h4 : ∀ kv ∈ target, (snapshot.get_futures_price kv.1 a.execution_price_field).isSome) :
    (a.rebalance_to_target target snapshot contracts reason).2.rebalance_to_target target
        snapshot contracts reason =
      (0, (a.rebalance_to_target target snapshot contracts reason).2) := by
  rw [rebalance_matching_noop a target snapshot contracts reason h1 h2 h3]
  exact rebalance_matching_noop a target snapshot contracts reason h1 h2 h3

/-- C4 witness: an account already holding the ten-lot target. -/
theorem rebalance_idempotent_witness :
    (acctA.rebalance_to_target [(tsA, 10)] snapA [(tsA, contractA)] rsnA).2.rebalance_to_target
        [(tsA, 10)] snapA [(tsA, contractA)] rsnA =
      (0, (acctA.rebalance_to_target [(tsA, 10)] snapA [(tsA, contractA)] rsnA).2) :=
  rebalance_idempotent acctA [(tsA, 10)] snapA [(tsA, contractA)] rsnA (by decide) (by decide)
    (by decide) (by decide)

theorem Account.execute_trade_positions (a : Account) (contract : FuturesContract)
    (volume : Int) (price : ℚ) (d : Int) (reason : String) :
    (a.execute_trade contract volume price d reason).2.positions =
      match lookupKey contract.ts_code a.positions with
      | some position =>
          if (position.update_volume volume price).2.volume = 0 then
            eraseKey contract.ts_code
              (setKey contract.ts_code (position.update_volume volume price).2 a.positions)
          else setKey contract.ts_code (position.update_volume volume price).2 a.positions
      | none => setKey contract.ts_code (Position.mk contract volume price price) a.positions := by
  cases hl : lookupKey contract.ts_code a.positions with
  | none => simp only [Account.execute_trade, hl]
  | some position => simp only [Account.execute_trade, hl]

theorem Account.execute_trade_no_zero (a : Account) (contract : FuturesContract)
    (volume : Int) (price : ℚ) (d : Int) (reason : String) (hv : volume ≠ 0)
    (h : a.no_zero_positions) :
    (a.execute_trade contract volume price d reason).2.no_zero_positions := by
  intro kp hkp
  rw [Account.execute_trade_positions] at hkp
  cases hl : lookupKey contract.ts_code a.positions with
  | none =>
      simp only [hl] at hkp
      rcases mem_setKey hkp with hin | heq
      · exact h kp hin
      · rw [heq]
        exact hv
  | some position =>
      simp only [hl] at hkp
      by_cases hz : (position.update_volume volume price).2.volume = 0
      · rw [if_pos hz] at hkp
        exact h kp (mem_eraseKey_setKey hkp)
      · rw [if_neg hz] at hkp
        rcases mem_setKey hkp with hin | heq
        · exact h kp hin
        · rw [heq]
          exact hz

theorem Account.close_position_no_zero (a : Account) (ts_code : String)
    (snapshot : MarketSnapshot) (reason : String) (h : a.no_zero_positions) :
    (a.close_position ts_code snapshot reason).2.no_zero_positions := by
  unfold Account.close_position
  cases hl : lookupKey ts_code a.positions with
  | none => exact h
  | some position =>
      have hv : position.volume ≠ 0 := h (ts_code, position) (lookupKey_mem hl)
      exact Account.execute_trade_no_zero a position.contract (-position.volume)
        ((snapshot.get_futures_price ts_code a.execution_price_field).getD
          position.last_settle)
        snapshot.trade_date reason (neg_ne_zero.mpr hv) h

theorem rebalanceCloseStep_no_zero (snapshot : MarketSnapshot)
    (target : List (String × Int)) (reason : String) (acc : ℚ × Account) (k : String)
    (h : acc.2.no_zero_positions) :
    (Account.rebalanceCloseStep snapshot target reason acc k).2.no_zero_positions := by
  unfold Account.rebalanceCloseStep
  split
  · exact Account.close_position_no_zero _ _ _ _ h
  · split
    · exact Account.close_position_no_zero _ _ _ _ h
    · exact h

theorem rebalanceOpenStep_no_zero (snapshot : MarketSnapshot)
    (contracts : List (String × FuturesContract)) (reason : String) (acc : ℚ × Account)
    (kv : String × Int) (h : acc.2.no_zero_positions) :
    (Account.rebalanceOpenStep snapshot contracts reason acc kv).2.no_zero_positions := by
  by_cases h0 : kv.2 = 0
  · simp only [Account.rebalanceOpenStep, if_pos h0]
    exact h
  · by_cases hδ : kv.2 - acc.2.get_position_volume kv.1 ≠ 0
    · simp only [Account.rebalanceOpenStep, if_neg h0, if_pos hδ]
      cases hc : lookupKey kv.1 contracts with
      | none => exact h
      | some contract =>
          cases hp : snapshot.get_futures_price kv.1 acc.2.execution_price_field with
          | none => exact h
          | some price => exact Account.execute_trade_no_zero _ _ _ _ _ _ hδ h
    · simp only [Account.rebalanceOpenStep, if_neg h0, if_neg hδ]
      exact h

theorem rebalance_no_zero (a : Account) (target : List (String × Int))
    (snapshot : MarketSnapshot) (contracts : List (String × FuturesContract))
    (reason : String) (h : a.no_zero_positions) :
    (a.rebalance_to_target target snapshot contracts reason).2.no_zero_positions := by
  unfold Account.rebalance_to_target
  apply foldl_preserves (P := fun acc : ℚ × Account => acc.2.no_zero_positions)
  · intro acc kv _ hacc
    exact rebalanceOpenStep_no_zero snapshot contracts reason acc kv hacc
  · apply foldl_preserves (P := fun acc : ℚ × Account => acc.2.no_zero_positions)
    · intro acc k _ hacc
      exact rebalanceCloseStep_no_zero snapshot target reason acc k hacc
    · exact h

theorem mtm_no_zero (a : Account) (snapshot : MarketSnapshot) (h : a.no_zero_positions) :
    (a.mark_to_market snapshot).2.no_zero_positions := by
  intro kp hkp
  have hm : kp ∈ a.positions.map
      (fun kp => (kp.1, (kp.2.mark_to_market snapshot.trade_date).2)) := hkp
  obtain ⟨kp0, hkp0, rfl⟩ := List.mem_map.mp hm
  show (kp0.2.mark_to_market snapshot.trade_date).2.volume ≠ 0
  rw [(Position.mtm_fields kp0.2 snapshot.trade_date).2.1]
  exact h kp0 hkp0

/-- C5: both public `Account` operations preserve the holdings invariant
that no position with volume exactly zero stays in the map — a trade that
drives a volume to zero deletes the position instead. -/
theorem account_ops_no_zero_invariant (a : Account) (target : List (String × Int))
    (snapshot snapshot2 : MarketSnapshot) (contracts : List (String × FuturesContract))
    (reason : String) (h : a.no_zero_positions) :
    (a.rebalance_to_target target snapshot contracts reason).2.no_zero_positions ∧
    (a.mark_to_market snapshot2).2.no_zero_positions :=
  ⟨rebalance_no_zero a target snapshot contracts reason h, mtm_no_zero a snapshot2 h⟩

/-- C5 witness: rebalancing the ten-lot account to a three-lot target and
marking it to market both keep the invariant. -/
theorem account_ops_no_zero_invariant_witness :
    (acctA.rebalance_to_target [(tsA, 3)] snapA [(tsA, contractA)] rsnA).2.no_zero_positions ∧
    (acctA.mark_to_market snapA).2.no_zero_positions :=
  account_ops_no_zero_invariant acctA [(tsA, 3)] snapA snapA [(tsA, contractA)] rsnA
    ((by decide : ∀ kp ∈ acctA.positions, kp.2.volume ≠ 0))

theorem Account.execute_trade_new (a : Account) (contract : FuturesContract) (volume : Int)
    (price : ℚ) (d : Int) (reason : String)
    (h : lookupKey contract.ts_code a.positions = none) :
    (a.execute_trade contract volume price d reason).2.realized_pnl = a.realized_pnl ∧
    (a.execute_trade contract volume price d reason).2.positions =
      setKey contract.ts_code (Position.mk contract volume price price) a.positions := by
  refine ⟨?_, ?_⟩ <;> simp [Account.execute_trade, h]

theorem Account.execute_trade_existing (a : Account) (contract : FuturesContract)
    (volume : Int) (price : ℚ) (d : Int) (reason : String) (pos : Position)
    (h : lookupKey contract.ts_code a.positions = some pos) :
    (a.execute_trade contract volume price d reason).2.realized_pnl =
      a.realized_pnl + (pos.update_volume volume price).1 := by
  simp [Account.execute_trade, h]

theorem update_volume_full_close (p : Position) (price : ℚ) (delta : Int)
    (hδ : delta = -p.volume) (hv : p.volume ≠ 0) :
    (p.update_volume delta price).1 =
      (price - p.entry_price) * (p.volume : ℚ) * p.multiplier := by
  subst hδ
  rcases lt_or_gt_of_ne hv with hneg | hpos
  · have h1 : ¬(0 < p.volume) := not_lt.mpr (le_of_lt hneg)
    have h2 : 0 < -p.volume := neg_pos.mpr hneg
    have h3 : -p.volume ≠ 0 := neg_ne_zero.mpr hv
    simp [Position.update_volume, h1, h2, h3, hneg]
    left
    rw [abs_of_neg (show (p.volume : ℚ) < 0 by exact_mod_cast hneg)]
    ring
  · have h3 : -p.volume ≠ 0 := neg_ne_zero.mpr hv
    have h4 : -p.volume < 0 := neg_neg_iff_pos.mpr hpos
    simp [Position.update_volume, h3, h4, hpos]
    exact Or.inl (Or.inl (le_of_lt hpos))

/-- C8: opening a fresh position of `v` lots at `p1` through the account
trade primitive and then fully closing it at `p2` adds exactly
`(p2 - p1) * v * multiplier` to the cumulative realized PnL (the sign of
`v` mirrors shorts), whatever the commission rate is. -/
theorem open_close_nets_realized (a : Account) (contract : FuturesContract) (v : Int)
    (p1 p2 : ℚ) (d1 d2 : Int) (reason1 reason2 : String)
    (hnew : lookupKey contract.ts_code a.positions = none) (hv : v ≠ 0) :
    ((a.execute_trade contract v p1 d1 reason1).2.execute_trade contract (-v) p2 d2
        reason2).2.realized_pnl =
      a.realized_pnl + (p2 - p1) * (v : ℚ) * contract.multiplier := by
  obtain ⟨hr1, hp1⟩ := Account.execute_trade_new a contract v p1 d1 reason1 hnew
  have hl : lookupKey contract.ts_code
      (a.execute_trade contract v p1 d1 reason1).2.positions =
        some (Position.mk contract v p1 p1) := by
    rw [hp1]
    exact lookupKey_setKey_self _ _ _
  rw [Account.execute_trade_existing _ _ _ _ _ _ _ hl, hr1,
    update_volume_full_close (Position.mk contract v p1 p1) p2 (-v) rfl hv]
  simp [Position.multiplier]

/-- C8 witness: ten lots opened at 5000 and closed at 5050 on a 200-point
contract realize 100000, with a nonzero commission rate configured. -/
theorem open_close_nets_realized_witness :
    ((acctB.execute_trade contractA 10 5000 1 rsnA).2.execute_trade contractA (-10) 5050 2
        rsnA).2.realized_pnl =
      acctB.realized_pnl + (5050 - 5000) * ((10 : Int) : ℚ) * contractA.multiplier :=
  open_close_nets_realized acctB contractA 10 5000 5050 1 2 rsnA rsnA rfl (by decide)

/-- C6: the hard expiry safety trigger: when the held contract has
`days_to_expiry <= roll_days_before_expiry` on the trade date,
`_should_roll` answers `True` before any candidate or liquidity lookup —
so for every chain and every snapshot, including ones with no candidate or
zero candidate volume. -/
theorem smart_roll_expiry_force (s : SmartRollStrategy) (contract : FuturesContract)
    (snapshot : SignalSnapshot)
    (h : contract.days_to_expiry snapshot.trade_date ≤ s.roll_days_before_expiry) :
    s.should_roll contract snapshot = true := by
  simp only [SmartRollStrategy.should_roll]
  rw [if_pos h]

/-- C6 witness: a contract one day from expiry on a snapshot carrying no
liquidity data at all (every prior-day volume lookup yields nothing). -/
theorem smart_roll_expiry_force_witness : stratA.should_roll contractHeld sigB = true :=
  smart_roll_expiry_force stratA contractHeld sigB (by decide)

/-- C9: away from the expiry trigger, `_should_roll` signals a roll exactly
when the first candidate — head of the chain contracts expiring after the
trade date with more than `min_roll_days` remaining, the held contract
excluded — has a lag-1 liquidity figure (volume or open interest per
`roll_criteria`) strictly above the held contract and strictly above
zero. -/
theorem smart_roll_liquidity_iff (s : SmartRollStrategy) (contract : FuturesContract)
    (snapshot : SignalSnapshot)
    (h : s.roll_days_before_expiry < contract.days_to_expiry snapshot.trade_date) :
    s.should_roll contract snapshot = true ↔
      ∃ candidate,
        ((s.contract_chain.get_contracts_expiring_after snapshot.trade_date
            s.min_roll_days).filter (fun c => c.ts_code ≠ contract.ts_code)).head? =
          some candidate ∧
        s.liq_val snapshot contract.ts_code < s.liq_val snapshot candidate.ts_code ∧
        0 < s.liq_val snapshot candidate.ts_code := by
  simp only [SmartRollStrategy.should_roll]
  rw [if_neg (not_le.mpr h)]
  cases hc : (s.contract_chain.get_contracts_expiring_after snapshot.trade_date
      s.min_roll_days).filter (fun c => c.ts_code ≠ contract.ts_code) with
  | nil => simp
  | cons candidate rest => simp

/-- C9 witness: on day 1 the next contract carries prior-day volume 80
against the held contract with 50; the instantiated equivalence. -/
theorem smart_roll_liquidity_iff_witness :
    stratA.should_roll contractHeld sigA = true ↔
      ∃ candidate,
        ((stratA.contract_chain.get_contracts_expiring_after sigA.trade_date
            stratA.min_roll_days).filter (fun c => c.ts_code ≠ contractHeld.ts_code)).head? =
          some candidate ∧
        stratA.liq_val sigA contractHeld.ts_code < stratA.liq_val sigA candidate.ts_code ∧
        0 < stratA.liq_val sigA candidate.ts_code :=
  smart_roll_liquidity_iff stratA contractHeld sigA (by decide)
